import Mathlib

/- Verification of the Twin Timer motion/relativity pipeline.

   Shallow embedding of src/app.js (two concatenated variants: a plain
   accelerometer timer and a quaternion-fusion timer) and
   src/unnamed/part_000 (a rotation-matrix variant).  JavaScript numbers
   are embedded as real numbers; Math.hypot, Math.tanh, Math.exp and
   Math.sqrt become their real counterparts, and the JavaScript
   truthiness idiom `x || y` on numbers becomes an explicit conditional. -/

noncomputable section

namespace Twins

/-- Value type for acceleration, angular velocity, velocity and gravity,
mirroring the plain `{x, y, z}` objects of the source. -/
structure Vec3 where
  x : ℝ
  y : ℝ
  z : ℝ

/-- Quaternion `[w, x, y, z]`, mirroring the 4-element arrays of the source
(`q[0] = w`). -/
structure Quat where
  w : ℝ
  x : ℝ
  y : ℝ
  z : ℝ

/-- JavaScript `a || b` on numbers: `b` when `a` is falsy (zero), else `a`. -/
def jsOr (a b : ℝ) : ℝ := if a = 0 then b else a

/-- Source `Math.hypot` with three arguments. -/
def hypot3 (x y z : ℝ) : ℝ := Real.sqrt (x * x + y * y + z * z)

/-- Source `Math.hypot` with four arguments. -/
def hypot4 (a b c d : ℝ) : ℝ := Real.sqrt (a * a + b * b + c * c + d * d)

/-- Source `const G = 9.80665; // m/s^2` (fusion variant). -/
def G : ℝ := 9.80665

/-- Source `const GATE = 0.05; // accel noise gate` (all variants). -/
def GATE : ℝ := 0.05

/-- Source `const norm3 = (x, y, z) => Math.hypot(x, y, z);`. -/
def norm3 (x y z : ℝ) : ℝ := hypot3 x y z

/-- Source `const addScaled = (v, a, dt) => ({ x: v.x + a.x * dt, ... });`. -/
def addScaled (v a : Vec3) (dt : ℝ) : Vec3 :=
  ⟨v.x + a.x * dt, v.y + a.y * dt, v.z + a.z * dt⟩

/-- Source `function limitSpeed(vmag, c) { return c * Math.tanh(vmag / c); }`. -/
def limitSpeed (vmag c : ℝ) : ℝ := c * Real.tanh (vmag / c)

/-- Source `function gammaFromV(vmag, c)`: piecewise Lorentz factor with the
`1e12` guard for `beta2 >= 1`. -/
def gammaFromV (vmag c : ℝ) : ℝ :=
  let beta2 := vmag * vmag / (c * c)
  if beta2 ≤ 0 then 1
  else if beta2 ≥ 1 then 1e12
  else 1 / Real.sqrt (1 - beta2)

/-- Source `function qNormalize(q)`: divide by `Math.hypot(q0,q1,q2,q3) || 1`. -/
def qNormalize (q : Quat) : Quat :=
  let n := jsOr (hypot4 q.w q.x q.y q.z) 1
  ⟨q.w / n, q.x / n, q.y / n, q.z / n⟩

/-- Source `function qConj(q) { return [q[0], -q[1], -q[2], -q[3]]; }`. -/
def qConj (q : Quat) : Quat := ⟨q.w, -q.x, -q.y, -q.z⟩

/-- Source `function qMul(a, b)`: Hamilton product. -/
def qMul (a b : Quat) : Quat :=
  ⟨a.w * b.w - a.x * b.x - a.y * b.y - a.z * b.z,
   a.w * b.x + a.x * b.w + a.y * b.z - a.z * b.y,
   a.w * b.y - a.x * b.z + a.y * b.w + a.z * b.x,
   a.w * b.z + a.x * b.y - a.y * b.x + a.z * b.w⟩

/-- Source `function qRotateVec(q, v)`: `v_world = q ⊗ v ⊗ q*`. -/
def qRotateVec (q : Quat) (v : Vec3) : Vec3 :=
  let vq : Quat := ⟨0, v.x, v.y, v.z⟩
  let t := qMul q vq
  let r := qMul t (qConj q)
  ⟨r.x, r.y, r.z⟩

/-- Euclidean norm of a quaternion, the quantity written `‖q‖` by the spec. -/
def qnorm (q : Quat) : ℝ := hypot4 q.w q.x q.y q.z

/- ---------------------------------------------------------------
   Shared helper lemmas
   --------------------------------------------------------------- -/

/-- A square root evaluates to any nonnegative number whose square is the
radicand. -/
lemma sqrt_eq_of_sq {a b : ℝ} (hb : 0 ≤ b) (h : b * b = a) : Real.sqrt a = b := by
  rw [← h]
  exact Real.sqrt_mul_self hb

/-- The Lorentz factor of the source is at least 1 on every input. -/
lemma gammaFromV_ge_one (vmag c : ℝ) : 1 ≤ gammaFromV vmag c := by
  unfold gammaFromV
  by_cases h0 : vmag * vmag / (c * c) ≤ 0
  · simp [h0]
  · by_cases h1 : vmag * vmag / (c * c) ≥ 1
    · simp only [h0, if_false, h1, if_true]
      norm_num
    · simp only [h0, if_false, h1]
      push_neg at h0 h1
      have hpos : 0 < 1 - vmag * vmag / (c * c) := by linarith
      have hle : 1 - vmag * vmag / (c * c) ≤ 1 := by linarith
      have hs1 : Real.sqrt (1 - vmag * vmag / (c * c)) ≤ 1 := by
        calc Real.sqrt (1 - vmag * vmag / (c * c)) ≤ Real.sqrt 1 := Real.sqrt_le_sqrt hle
        _ = 1 := Real.sqrt_one
      have hs0 : 0 < Real.sqrt (1 - vmag * vmag / (c * c)) := Real.sqrt_pos.mpr hpos
      rw [le_div_iff₀ hs0, one_mul]
      exact hs1

/-- Hyperbolic `tanh` written through the exponential of the doubled argument. -/
lemma tanh_eq_exp_two_mul (x : ℝ) :
    Real.tanh x = (Real.exp (2 * x) - 1) / (Real.exp (2 * x) + 1) := by
  have hx : Real.exp x ≠ 0 := (Real.exp_pos x).ne'
  have h2 : Real.exp (2 * x) = Real.exp x * Real.exp x := by
    rw [two_mul, Real.exp_add]
  have hden : Real.exp x + (Real.exp x)⁻¹ ≠ 0 := by
    have : 0 < Real.exp x + (Real.exp x)⁻¹ := by positivity
    exact this.ne'
  have hden2 : Real.exp x * Real.exp x + 1 ≠ 0 := by positivity
  rw [Real.tanh_eq_sinh_div_cosh, Real.sinh_eq, Real.cosh_eq, Real.exp_neg, h2]
  field_simp

/-- Hyperbolic `tanh` is strictly below 1 on every real input. -/
lemma tanh_lt_one (x : ℝ) : Real.tanh x < 1 := by
  rw [tanh_eq_exp_two_mul]
  have h : 0 < Real.exp (2 * x) := Real.exp_pos _
  rw [div_lt_one (by linarith)]
  linarith

/-- Rational lower bound for `exp (1/50)` from the degree-3 Taylor partial sum. -/
lemma exp_one_fiftieth_lb : (765151 : ℝ) / 750000 ≤ Real.exp (1 / 50) := by
  have h := Real.sum_le_exp_of_nonneg (show (0 : ℝ) ≤ 1 / 50 by norm_num) 4
  have hs : (∑ i ∈ Finset.range 4, ((1 : ℝ) / 50) ^ i / (Nat.factorial i)) =
      765151 / 750000 := by
    simp [Finset.sum_range_succ, Nat.factorial]
    norm_num
  rw [hs] at h
  exact h

/-- Rational upper bound for `exp (1/50)`. -/
lemma exp_one_fiftieth_ub : Real.exp (1 / 50) ≤ (122424161 : ℝ) / 120000000 := by
  have h := Real.exp_bound' (show (0 : ℝ) ≤ 1 / 50 by norm_num)
    (show (1 : ℝ) / 50 ≤ 1 by norm_num) (show 0 < 4 by norm_num)
  have hs : (∑ i ∈ Finset.range 4, ((1 : ℝ) / 50) ^ i / (Nat.factorial i)) =
      765151 / 750000 := by
    simp [Finset.sum_range_succ, Nat.factorial]
    norm_num
  rw [hs] at h
  calc Real.exp (1 / 50) ≤
      765151 / 750000 + (1 / 50 : ℝ) ^ 4 * (4 + 1) / (Nat.factorial 4 * 4) := h
  _ = (122424161 : ℝ) / 120000000 := by norm_num [Nat.factorial]

namespace Madgwick

/-- Source `const beta = 0.1;` — filter gain of the fusion variant. -/
def beta : ℝ := 0.1

/-- The gradient-descent corrective step `(s1, s2, s3, s4)` of
`Madgwick.update`, on the already-normalized accelerometer and magnetometer
readings; the auxiliary products (`_2q1mx`, `q1q1`, ...) of the source are
inlined. -/
def gradS (q : Quat) (ax ay az mx my mz : ℝ) : Quat :=
  let q1 := q.w
  let q2 := q.x
  let q3 := q.y
  let q4 := q.z
  let hx := mx*q1*q1 - 2*q1*my*q4 + 2*q1*mz*q3 + mx*q2*q2 + 2*q2*my*q3
            + 2*q2*mz*q4 - mx*q3*q3 - mx*q4*q4
  let hy := 2*q1*mx*q4 + my*q1*q1 - 2*q1*mz*q2 + 2*q2*mx*q3 - my*q2*q2
            + my*q3*q3 + 2*q3*mz*q4 - my*q4*q4
  let _2bx := Real.sqrt (hx*hx + hy*hy)
  let _2bz := -2*q1*mx*q3 + 2*q1*my*q2 + mz*q1*q1 + 2*q2*mx*q4 - mz*q2*q2
              + 2*q3*my*q4 - mz*q3*q3 + mz*q4*q4
  let _4bx := 2 * _2bx
  let _4bz := 2 * _2bz
  let s1 := -2*q3*(2*(q2*q4 - q1*q3) - ax) + 2*q2*(2*(q1*q2 + q3*q4) - ay)
            - _2bz*q3*(_2bx*(0.5 - q3*q3 - q4*q4) + _2bz*(q2*q4 - q1*q3) - mx)
            + (-_2bx*q4 + _2bz*q2)*(_2bx*(q2*q3 - q1*q4) + _2bz*(q1*q2 + q3*q4) - my)
            + _2bx*q3*(_2bx*(q1*q3 + q2*q4) + _2bz*(0.5 - q2*q2 - q3*q3) - mz)
  let s2 := 2*q4*(2*(q2*q4 - q1*q3) - ax) + 2*q1*(2*(q1*q2 + q3*q4) - ay)
            - 4*q2*(1 - 2*(q2*q2 + q3*q3) - az)
            + _2bz*q4*(_2bx*(0.5 - q3*q3 - q4*q4) + _2bz*(q2*q4 - q1*q3) - mx)
            + (_2bx*q3 + _2bz*q1)*(_2bx*(q2*q3 - q1*q4) + _2bz*(q1*q2 + q3*q4) - my)
            + (_2bx*q4 - _4bz*q2)*(_2bx*(q1*q3 + q2*q4) + _2bz*(0.5 - q2*q2 - q3*q3) - mz)
  let s3 := -2*q1*(2*(q2*q4 - q1*q3) - ax) + 2*q4*(2*(q1*q2 + q3*q4) - ay)
            - 4*q3*(1 - 2*(q2*q2 + q3*q3) - az)
            + (-_4bx*q3 - _2bz*q1)*(_2bx*(0.5 - q3*q3 - q4*q4) + _2bz*(q2*q4 - q1*q3) - mx)
            + (_2bx*q2 + _2bz*q4)*(_2bx*(q2*q3 - q1*q4) + _2bz*(q1*q2 + q3*q4) - my)
            + (_2bx*q1 - _4bz*q3)*(_2bx*(q1*q3 + q2*q4) + _2bz*(0.5 - q2*q2 - q3*q3) - mz)
  let s4 := 2*q2*(2*(q2*q4 - q1*q3) - ax) + 2*q3*(2*(q1*q2 + q3*q4) - ay)
            + (-_4bx*q4 + _2bz*q2)*(_2bx*(0.5 - q3*q3 - q4*q4) + _2bz*(q2*q4 - q1*q3) - mx)
            + (-_2bx*q1 + _2bz*q3)*(_2bx*(q2*q3 - q1*q4) + _2bz*(q1*q2 + q3*q4) - my)
            + _2bx*q2*(_2bx*(q1*q3 + q2*q4) + _2bz*(0.5 - q2*q2 - q3*q3) - mz)
  ⟨s1, s2, s3, s4⟩

/-- The corrective step with every magnetic-field summand removed (used to
state what the update degenerates to on a zero magnetometer reading). -/
def gradSGravOnly (q : Quat) (ax ay az : ℝ) : Quat :=
  let q1 := q.w
  let q2 := q.x
  let q3 := q.y
  let q4 := q.z
  ⟨-2*q3*(2*(q2*q4 - q1*q3) - ax) + 2*q2*(2*(q1*q2 + q3*q4) - ay),
   2*q4*(2*(q2*q4 - q1*q3) - ax) + 2*q1*(2*(q1*q2 + q3*q4) - ay)
     - 4*q2*(1 - 2*(q2*q2 + q3*q3) - az),
   -2*q1*(2*(q2*q4 - q1*q3) - ax) + 2*q4*(2*(q1*q2 + q3*q4) - ay)
     - 4*q3*(1 - 2*(q2*q2 + q3*q3) - az),
   2*q2*(2*(q2*q4 - q1*q3) - ax) + 2*q3*(2*(q1*q2 + q3*q4) - ay)⟩

/-- Source `Madgwick.update` before its final renormalization: normalize the
reference vectors (with the guards of the source), form the corrective
gradient, normalize it with the `s4 || 1` quirk of the source, combine with
the gyroscope quaternion rate and integrate over `dt`. -/
def integrated (q : Quat) (gx gy gz ax ay az mx my mz dt : ℝ) : Quat :=
  let aNorm := hypot3 ax ay az
  let axn := ax / aNorm
  let ayn := ay / aNorm
  let azn := az / aNorm
  let mNorm := hypot3 mx my mz
  let mxn := if mNorm ≠ 0 then mx / mNorm else mx
  let myn := if mNorm ≠ 0 then my / mNorm else my
  let mzn := if mNorm ≠ 0 then mz / mNorm else mz
  let s := gradS q axn ayn azn mxn myn mzn
  let recipNorm := 1 / hypot4 s.w s.x s.y (jsOr s.z 1)
  let s1n := s.w * recipNorm
  let s2n := s.x * recipNorm
  let s3n := s.y * recipNorm
  let s4n := s.z * recipNorm
  let qDot1 := 0.5 * (-q.x * gx - q.y * gy - q.z * gz) - beta * s1n
  let qDot2 := 0.5 * ( q.w * gx + q.y * gz - q.z * gy) - beta * s2n
  let qDot3 := 0.5 * ( q.w * gy - q.x * gz + q.z * gx) - beta * s3n
  let qDot4 := 0.5 * ( q.w * gz + q.x * gy - q.y * gx) - beta * s4n
  ⟨q.w + qDot1 * dt, q.x + qDot2 * dt, q.y + qDot3 * dt, q.z + qDot4 * dt⟩

/-- Source `Madgwick.update`: return the quaternion unchanged when the accelerometer
magnitude is zero, otherwise integrate and renormalize. -/
def update (q : Quat) (gx gy gz ax ay az mx my mz dt : ℝ) : Quat :=
  if hypot3 ax ay az = 0 then q
  else qNormalize (integrated q gx gy gz ax ay az mx my mz dt)

/-- The counterpart of `integrated` built on the gravity-only gradient. -/
def integratedGravOnly (q : Quat) (gx gy gz ax ay az dt : ℝ) : Quat :=
  let aNorm := hypot3 ax ay az
  let axn := ax / aNorm
  let ayn := ay / aNorm
  let azn := az / aNorm
  let s := gradSGravOnly q axn ayn azn
  let recipNorm := 1 / hypot4 s.w s.x s.y (jsOr s.z 1)
  let s1n := s.w * recipNorm
  let s2n := s.x * recipNorm
  let s3n := s.y * recipNorm
  let s4n := s.z * recipNorm
  let qDot1 := 0.5 * (-q.x * gx - q.y * gy - q.z * gz) - beta * s1n
  let qDot2 := 0.5 * ( q.w * gx + q.y * gz - q.z * gy) - beta * s2n
  let qDot3 := 0.5 * ( q.w * gy - q.x * gz + q.z * gx) - beta * s3n
  let qDot4 := 0.5 * ( q.w * gz + q.x * gy - q.y * gx) - beta * s4n
  ⟨q.w + qDot1 * dt, q.x + qDot2 * dt, q.y + qDot3 * dt, q.z + qDot4 * dt⟩

/-- The counterpart of `update` built on the gravity-only gradient. -/
def updateGravOnly (q : Quat) (gx gy gz ax ay az dt : ℝ) : Quat :=
  if hypot3 ax ay az = 0 then q
  else qNormalize (integratedGravOnly q gx gy gz ax ay az dt)

end Madgwick

/-- Raw settings values as parsed from the settings inputs. -/
structure Config where
  cval : ℝ
  tau : ℝ
  kboost : ℝ

/-- Source `function getC()`: the configured invariant speed, falling back to 1.0
unless finite and positive. -/
def getC (cfg : Config) : ℝ := if 0 < cfg.cval then cfg.cval else 1.0

/-- Source `function getTau()`: the configured decay time constant, falling back to
3.0 unless finite and positive. -/
def getTau (cfg : Config) : ℝ := if 0 < cfg.tau then cfg.tau else 3.0

/-- Source `function getK()`: the configured relativistic decay boost, falling back
to 0.5 unless finite and nonnegative. -/
def getK (cfg : Config) : ℝ := if 0 ≤ cfg.kboost then cfg.kboost else 0.5

/-- The pipeline state mutated by the main loop of the fusion variant: the
Madgwick world-to-device quaternion, world velocity, proper time, and the
running flag (held by the controls). -/
structure PState where
  qwd : Quat
  vWorld : Vec3
  tauVal : ℝ
  running : Bool

/-- Everything one invocation of the fusion-variant loop reads besides the
pipeline state: the measured dt and the latest-reading caches written by the
sensor event handlers (the generic-path gyroscope cache is stored but never
read by the loop), plus the orientation-source flags and the settings. -/
structure FrameInput where
  dt : ℝ
  linAcc : Option Vec3
  accInc : Option Vec3
  mag : Option Vec3
  gyro : Option Vec3
  dmRotRate : Option Vec3
  dmTS : Option ℝ
  usingAbs : Bool
  qdwAbs : Quat
  cfg : Config

/-- The legacy orientation-fusion block at the top of the loop: run a
Madgwick update from the DeviceMotion rotation rate when present (missing
magnetometer components default to 0 via `mag?.x || 0`). -/
def legacyFusion (qwd : Quat) (i : FrameInput) : Quat :=
  if i.usingAbs then qwd
  else
    match i.dmRotRate, i.dmTS with
    | some rr, some _ =>
      match i.linAcc.orElse (fun _ => i.accInc) with
      | some a =>
        Madgwick.update qwd rr.x rr.y rr.z a.x a.y a.z
          ((i.mag.map Vec3.x).getD 0) ((i.mag.map Vec3.y).getD 0)
          ((i.mag.map Vec3.z).getD 0) i.dt
      | none => qwd
    | _, _ => qwd

/-- Source `function getLinearAccDev()`: the cached gravity-free reading when
present; otherwise subtract world gravity `(0,0,-G)` rotated into the device
frame by the current orientation; otherwise zero. -/
def getLinearAccDev (i : FrameInput) (qwd : Quat) : Vec3 :=
  match i.linAcc with
  | some a => a
  | none =>
    match i.accInc with
    | some ai =>
      let qwdUsed := if i.usingAbs then qConj i.qdwAbs else qwd
      let gDevVec := qRotateVec qwdUsed ⟨0, 0, -G⟩
      ⟨ai.x - gDevVec.x, ai.y - gDevVec.y, ai.z - gDevVec.z⟩
    | none => ⟨0, 0, 0⟩

/-- One axis of the noise gate: zero the component when its magnitude is
below `GATE`. -/
def gateAxis (x : ℝ) : ℝ := if |x| < GATE then 0 else x

/-- The device-frame noise gate the loop applies to `getLinearAccDev()`. -/
def gateVec (a : Vec3) : Vec3 := ⟨gateAxis a.x, gateAxis a.y, gateAxis a.z⟩

/-- The adaptive drift-to-rest block of the loop: when the world-frame
acceleration magnitude is zero or strictly below `GATE * 1.5`, scale the
velocity by `exp (-dt / tauEff)` with `tauEff = tau / (1 + k * (gamma - 1))`. -/
def driftDecay (v : Vec3) (amag gamma dt tau k : ℝ) : Vec3 :=
  if amag = 0 ∨ amag < GATE * 1.5 then
    let tauEff := tau / (1 + k * (gamma - 1))
    let decay := Real.exp (-dt / tauEff)
    ⟨v.x * decay, v.y * decay, v.z * decay⟩
  else v

/-- One step of the fusion-variant main loop `function loop(t)` with its
measured `dt`: legacy fusion, device-frame noise gate, rotation to the world
frame, Euler integration, relativistic mapping, adaptive drift decay, and
the proper-time update.  A non-running engine returns immediately. -/
def loopStep (s : PState) (i : FrameInput) : PState :=
  if s.running then
    let qwd1 := legacyFusion s.qwd i
    let aDev := gateVec (getLinearAccDev i qwd1)
    let qdw := if i.usingAbs then i.qdwAbs else qConj qwd1
    let aWorld := qRotateVec qdw aDev
    let v1 := addScaled s.vWorld aWorld i.dt
    let vmag := norm3 v1.x v1.y v1.z
    let c := getC i.cfg
    let vEff := limitSpeed vmag c
    let gamma := gammaFromV vEff c
    let amag := norm3 aWorld.x aWorld.y aWorld.z
    let v2 := driftDecay v1 amag gamma i.dt (getTau i.cfg) (getK i.cfg)
    ⟨qwd1, v2, s.tauVal + i.dt / gamma, s.running⟩
  else s

/-- Run the loop over a list of frames. -/
def runSteps (s : PState) (frames : List FrameInput) : PState :=
  frames.foldl loopStep s

/-- The reset click handler of the fusion variant: zero proper time and the
velocity; the quaternion and the running flag are not touched. -/
def resetHandler (s : PState) : PState := ⟨s.qwd, ⟨0, 0, 0⟩, 0, s.running⟩

/-- Modelled from the spec (section 4.2, Mode B), for comparison with the
source: update a persistent world-frame gravity estimate by exponential
low-pass filtering with time constant `gravityFilterTau = 0.7`, rescale it
to exactly the standard-gravity magnitude (nominal `(0,0,-G)` fallback when
the estimate is zero), and subtract it from the rotated reading.  Returns
the new estimate and the separated linear acceleration. -/
def specModeB (gEst aW : Vec3) (dt : ℝ) : Vec3 × Vec3 :=
  let gravityFilterTau : ℝ := 0.7
  let alpha := Real.exp (-dt / gravityFilterTau)
  let gNew : Vec3 := ⟨alpha * gEst.x + (1 - alpha) * aW.x,
                      alpha * gEst.y + (1 - alpha) * aW.y,
                      alpha * gEst.z + (1 - alpha) * aW.z⟩
  let gmag := norm3 gNew.x gNew.y gNew.z
  let gHat : Vec3 :=
    if gmag = 0 then ⟨0, 0, -G⟩
    else ⟨G * gNew.x / gmag, G * gNew.y / gmag, G * gNew.z / gmag⟩
  (gNew, ⟨aW.x - gHat.x, aW.y - gHat.y, aW.z - gHat.z⟩)

/-- Modelled from the spec (section 4.1), for comparison with the source:
pure gyroscopic kinematic integration, `qdot = 0.5 * q ⊗ (0, omega)`,
first-order Euler over `dt`, renormalize. -/
def gyroKinematicStep (q : Quat) (gx gy gz dt : ℝ) : Quat :=
  let qd := qMul q ⟨0, gx, gy, gz⟩
  qNormalize ⟨q.w + 0.5 * qd.w * dt, q.x + 0.5 * qd.x * dt,
              q.y + 0.5 * qd.y * dt, q.z + 0.5 * qd.z * dt⟩

/- ---------------------------------------------------------------
   C2 — speed limiter
   --------------------------------------------------------------- -/

/-- C2: for `v_raw ≥ 0` and `c > 0` the limiter `v_eff = c * tanh (v_raw / c)`
is strictly below `c`, and at `c = 1`, `v_raw = 0.01` it is within `1e-6`
of `0.01`. -/
theorem c2_limitSpeed_strict_and_accurate (v c : ℝ) (_hv : 0 ≤ v) (hc : 0 < c) :
    limitSpeed v c < c ∧ |limitSpeed 0.01 1 - 0.01| ≤ 1e-6 := by
  constructor
  · have ht := tanh_lt_one (v / c)
    calc limitSpeed v c = c * Real.tanh (v / c) := rfl
    _ < c * 1 := by exact (mul_lt_mul_left hc).mpr ht
    _ = c := mul_one c
  · have h1 : limitSpeed 0.01 1 = Real.tanh 0.01 := by
      unfold limitSpeed
      norm_num
    have h2 : (2 : ℝ) * 0.01 = 1 / 50 := by norm_num
    have h3 : Real.tanh 0.01 =
        (Real.exp (1 / 50) - 1) / (Real.exp (1 / 50) + 1) := by
      rw [tanh_eq_exp_two_mul, h2]
    have hlo := exp_one_fiftieth_lb
    have hhi := exp_one_fiftieth_ub
    have hpos : 0 < Real.exp (1 / 50) + 1 := by positivity
    have hA : (0.01 - 1e-6 : ℝ) ≤ (Real.exp (1 / 50) - 1) / (Real.exp (1 / 50) + 1) := by
      rw [le_div_iff₀ hpos]
      nlinarith
    have hB : (Real.exp (1 / 50) - 1) / (Real.exp (1 / 50) + 1) ≤ (0.01 + 1e-6 : ℝ) := by
      rw [div_le_iff₀ hpos]
      nlinarith
    rw [h1, h3, abs_le]
    constructor
    · linarith
    · linarith

/-- C2 witness at `v = 0`, `c = 1`. -/
theorem c2_limitSpeed_strict_and_accurate_witness :
    limitSpeed 0 1 < 1 ∧ |limitSpeed 0.01 1 - 0.01| ≤ 1e-6 :=
  c2_limitSpeed_strict_and_accurate 0 1 le_rfl one_pos

/- ---------------------------------------------------------------
   C3 — Lorentz factor
   --------------------------------------------------------------- -/

/-- C3: `gammaFromV` returns exactly 1 at `v_eff = 0`, the sentinel `1e12`
for `v_eff ≥ c`, and is strictly increasing on `[0, c)`. -/
theorem c3_gamma_piecewise_and_strict_mono (c : ℝ) (hc : 0 < c) :
    gammaFromV 0 c = 1 ∧
    (∀ v, c ≤ v → gammaFromV v c = 1e12) ∧
    StrictMonoOn (fun v => gammaFromV v c) (Set.Ico 0 c) := by
  refine ⟨?_, ?_, ?_⟩
  · unfold gammaFromV
    norm_num
  · intro v hcv
    have hpos : 0 < c * c := by positivity
    have hge : 1 ≤ v * v / (c * c) := by
      rw [le_div_iff₀ hpos, one_mul]
      nlinarith
    unfold gammaFromV
    have h0 : ¬ (v * v / (c * c) ≤ 0) := by linarith
    simp only [h0, if_false, ge_iff_le, hge, if_true]
  · intro v1 h1 v2 h2 h12
    obtain ⟨h1a, h1b⟩ := h1
    obtain ⟨h2a, h2b⟩ := h2
    have hcc : 0 < c * c := by positivity
    have hv2pos : 0 < v2 := lt_of_le_of_lt h1a h12
    have hb2pos : 0 < v2 * v2 / (c * c) := by positivity
    have hb2lt : v2 * v2 / (c * c) < 1 := by
      rw [div_lt_one hcc]
      nlinarith
    have hrad2 : 0 < 1 - v2 * v2 / (c * c) := by linarith
    have hg2 : gammaFromV v2 c = 1 / Real.sqrt (1 - v2 * v2 / (c * c)) := by
      unfold gammaFromV
      have hn0 : ¬ (v2 * v2 / (c * c) ≤ 0) := by linarith
      have hn1 : ¬ (v2 * v2 / (c * c) ≥ 1) := by linarith
      simp only [hn0, if_false, hn1]
    have hs2pos : 0 < Real.sqrt (1 - v2 * v2 / (c * c)) := Real.sqrt_pos.mpr hrad2
    rcases eq_or_lt_of_le h1a with hz | hv1pos
    · have hg1 : gammaFromV v1 c = 1 := by
        unfold gammaFromV
        rw [← hz]
        norm_num
      have hs2lt : Real.sqrt (1 - v2 * v2 / (c * c)) < 1 := by
        have : 1 - v2 * v2 / (c * c) < 1 := by linarith
        calc Real.sqrt (1 - v2 * v2 / (c * c)) < Real.sqrt 1 :=
          Real.sqrt_lt_sqrt (le_of_lt hrad2) this
        _ = 1 := Real.sqrt_one
      simp only [hg1, hg2]
      rw [lt_div_iff₀ hs2pos, one_mul]
      exact hs2lt
    · have hb1pos : 0 < v1 * v1 / (c * c) := by positivity
      have hb1lt : v1 * v1 / (c * c) < v2 * v2 / (c * c) := by
        rw [div_lt_div_iff₀ hcc hcc]
        have hnum : v1 * v1 < v2 * v2 := by nlinarith
        exact mul_lt_mul_of_pos_right hnum hcc
      have hg1 : gammaFromV v1 c = 1 / Real.sqrt (1 - v1 * v1 / (c * c)) := by
        unfold gammaFromV
        have hn0 : ¬ (v1 * v1 / (c * c) ≤ 0) := by linarith
        have hn1 : ¬ (v1 * v1 / (c * c) ≥ 1) := by nlinarith
        simp only [hn0, if_false, hn1]
      have hrad1 : 0 < 1 - v1 * v1 / (c * c) := by nlinarith
      have hslt : Real.sqrt (1 - v2 * v2 / (c * c)) <
          Real.sqrt (1 - v1 * v1 / (c * c)) :=
        Real.sqrt_lt_sqrt (le_of_lt hrad2) (by linarith)
      simp only [hg1, hg2]
      exact one_div_lt_one_div_of_lt hs2pos hslt

/-- C3 witness at `c = 1`. -/
theorem c3_gamma_piecewise_and_strict_mono_witness :
    gammaFromV 0 1 = 1 ∧
    (∀ v, (1 : ℝ) ≤ v → gammaFromV v 1 = 1e12) ∧
    StrictMonoOn (fun v => gammaFromV v 1) (Set.Ico 0 1) :=
  c3_gamma_piecewise_and_strict_mono 1 one_pos

/- ---------------------------------------------------------------
   C1 — proper time
   --------------------------------------------------------------- -/

/-- Adding `dt / g` with `g ≥ 1` and `dt ≥ 0` moves a value up by at most
`dt`. -/
lemma tau_add_div_bounds (t dt g : ℝ) (h : 0 ≤ dt) (hg : 1 ≤ g) :
    t ≤ t + dt / g ∧ t + dt / g ≤ t + dt := by
  constructor
  · have hq : 0 ≤ dt / g := div_nonneg h (by linarith)
    linarith
  · have hq : dt / g ≤ dt := div_le_self h hg
    linarith

/-- Each loop step moves the proper-time accumulator up by `dt / gamma`,
which lies between 0 and `dt`. -/
lemma loopStep_tauVal_mono (s : PState) (i : FrameInput) (h : 0 ≤ i.dt) :
    s.tauVal ≤ (loopStep s i).tauVal ∧ (loopStep s i).tauVal ≤ s.tauVal + i.dt := by
  unfold loopStep
  cases hr : s.running with
  | false => simp [h]
  | true =>
    simp only [hr, if_true]
    exact tau_add_div_bounds _ _ _ h (gammaFromV_ge_one _ _)

/-- C1: over any list of frames with positive dt the accumulator never
decreases; each single step adds `dt / gamma ≤ dt`, because `gamma ≥ 1`. -/
theorem c1_proper_time_monotone (s : PState) (frames : List FrameInput)
    (h : ∀ i ∈ frames, 0 < i.dt) :
    s.tauVal ≤ (runSteps s frames).tauVal ∧
    (∀ (s2 : PState) (i : FrameInput), 0 < i.dt →
      s2.tauVal ≤ (loopStep s2 i).tauVal ∧
      (loopStep s2 i).tauVal ≤ s2.tauVal + i.dt) ∧
    (∀ ve c, 1 ≤ gammaFromV ve c) := by
  refine ⟨?_, fun s2 i hdt => loopStep_tauVal_mono s2 i hdt.le, gammaFromV_ge_one⟩
  induction frames generalizing s with
  | nil => exact le_rfl
  | cons i rest ih =>
    show s.tauVal ≤ (runSteps (loopStep s i) rest).tauVal
    have h1 := (loopStep_tauVal_mono s i (h i (by simp)).le).1
    have h2 := ih (loopStep s i) (fun j hj => h j (by simp [hj]))
    linarith

/-- A concrete one-second frame with no sensor data, used by witnesses. -/
def oneSecondFrame : FrameInput :=
  ⟨1, none, none, none, none, none, none, false, ⟨1, 0, 0, 0⟩, ⟨1, 3, 0.5⟩⟩

/-- C1 witness: one frame of one second from a fresh running engine. -/
theorem c1_proper_time_monotone_witness :
    (∀ i ∈ [oneSecondFrame], 0 < i.dt) ∧
    ((⟨⟨1, 0, 0, 0⟩, ⟨0, 0, 0⟩, 0, true⟩ : PState).tauVal ≤
        (runSteps ⟨⟨1, 0, 0, 0⟩, ⟨0, 0, 0⟩, 0, true⟩ [oneSecondFrame]).tauVal ∧
      (∀ (s2 : PState) (i : FrameInput), 0 < i.dt →
        s2.tauVal ≤ (loopStep s2 i).tauVal ∧
        (loopStep s2 i).tauVal ≤ s2.tauVal + i.dt) ∧
      (∀ ve c, 1 ≤ gammaFromV ve c)) := by
  have hin : ∀ i ∈ [oneSecondFrame], 0 < i.dt := by
    intro i hi
    rw [List.mem_singleton] at hi
    subst hi
    norm_num [oneSecondFrame]
  exact ⟨hin, c1_proper_time_monotone _ [oneSecondFrame] hin⟩

/- ---------------------------------------------------------------
   C10 — reset
   --------------------------------------------------------------- -/

/-- C10: reset zeroes the velocity and the proper-time accumulator, leaves
the quaternion and the running flag unchanged, and therefore preserves the
unit-norm invariant. -/
theorem c10_reset_effect (s : PState) (h : qnorm s.qwd = 1) :
    (resetHandler s).vWorld = ⟨0, 0, 0⟩ ∧
    (resetHandler s).tauVal = 0 ∧
    (resetHandler s).qwd = s.qwd ∧
    (resetHandler s).running = s.running ∧
    qnorm (resetHandler s).qwd = 1 :=
  ⟨rfl, rfl, rfl, rfl, h⟩

/-- C10 witness at a concrete running state with a unit quaternion. -/
theorem c10_reset_effect_witness :
    qnorm (⟨⟨1, 0, 0, 0⟩, ⟨2, 3, 4⟩, 7, true⟩ : PState).qwd = 1 ∧
    ((resetHandler ⟨⟨1, 0, 0, 0⟩, ⟨2, 3, 4⟩, 7, true⟩).vWorld = ⟨0, 0, 0⟩ ∧
      (resetHandler ⟨⟨1, 0, 0, 0⟩, ⟨2, 3, 4⟩, 7, true⟩).tauVal = 0 ∧
      (resetHandler ⟨⟨1, 0, 0, 0⟩, ⟨2, 3, 4⟩, 7, true⟩).qwd =
        (⟨⟨1, 0, 0, 0⟩, ⟨2, 3, 4⟩, 7, true⟩ : PState).qwd ∧
      (resetHandler ⟨⟨1, 0, 0, 0⟩, ⟨2, 3, 4⟩, 7, true⟩).running =
        (⟨⟨1, 0, 0, 0⟩, ⟨2, 3, 4⟩, 7, true⟩ : PState).running ∧
      qnorm (resetHandler ⟨⟨1, 0, 0, 0⟩, ⟨2, 3, 4⟩, 7, true⟩).qwd = 1) := by
  have h : qnorm (⟨⟨1, 0, 0, 0⟩, ⟨2, 3, 4⟩, 7, true⟩ : PState).qwd = 1 := by
    unfold qnorm hypot4
    norm_num
  exact ⟨h, c10_reset_effect _ h⟩

/- ---------------------------------------------------------------
   C9 — noise gate
   --------------------------------------------------------------- -/

/-- After gating, a component is either zero or at least `GATE` in size. -/
lemma gateAxis_cases (x : ℝ) : gateAxis x = 0 ∨ GATE ≤ |gateAxis x| := by
  unfold gateAxis
  by_cases h : |x| < GATE
  · left
    rw [if_pos h]
  · right
    rw [if_neg h]
    exact not_lt.mp h

/-- C9 (amended): the noise gate acts on device-frame components — after it,
every device-frame component is zero or at least `GATE` in magnitude. -/
theorem c9_device_gate_guarantee (a : Vec3) :
    ((gateVec a).x = 0 ∨ GATE ≤ |(gateVec a).x|) ∧
    ((gateVec a).y = 0 ∨ GATE ≤ |(gateVec a).y|) ∧
    ((gateVec a).z = 0 ∨ GATE ≤ |(gateVec a).z|) :=
  ⟨gateAxis_cases a.x, gateAxis_cases a.y, gateAxis_cases a.z⟩

/-- The drift-decay block leaves the velocity alone when the acceleration
magnitude does not trigger the stillness condition. -/
lemma driftDecay_off (v : Vec3) (amag gamma dt tau k : ℝ)
    (h : ¬(amag = 0 ∨ amag < GATE * 1.5)) :
    driftDecay v amag gamma dt tau k = v := if_neg h

/-- The drift-decay block scales each component by `exp (-dt / tauEff)` when
the stillness condition holds. -/
lemma driftDecay_on (v : Vec3) (amag gamma dt tau k : ℝ)
    (h : amag = 0 ∨ amag < GATE * 1.5) :
    driftDecay v amag gamma dt tau k =
      ⟨v.x * Real.exp (-dt / (tau / (1 + k * (gamma - 1)))),
       v.y * Real.exp (-dt / (tau / (1 + k * (gamma - 1)))),
       v.z * Real.exp (-dt / (tau / (1 + k * (gamma - 1))))⟩ := if_pos h

/-- Closed form of one running loop step for a frame that carries only a
gravity-free reading (no DeviceMotion rotation rate, no absolute
orientation): the quaternion is untouched and the velocity goes through
gate, rotation, Euler integration and the drift-decay block. -/
lemma loopStep_simple (qwd : Quat) (v0 : Vec3) (t0 : ℝ) (dt : ℝ) (a : Vec3)
    (g : Option Vec3) (qAbs : Quat) (cfg : Config) :
    loopStep ⟨qwd, v0, t0, true⟩
        ⟨dt, some a, none, none, g, none, none, false, qAbs, cfg⟩ =
      ⟨qwd,
       driftDecay (addScaled v0 (qRotateVec (qConj qwd) (gateVec a)) dt)
         (norm3 (qRotateVec (qConj qwd) (gateVec a)).x
                (qRotateVec (qConj qwd) (gateVec a)).y
                (qRotateVec (qConj qwd) (gateVec a)).z)
         (gammaFromV
           (limitSpeed
             (norm3 (addScaled v0 (qRotateVec (qConj qwd) (gateVec a)) dt).x
                    (addScaled v0 (qRotateVec (qConj qwd) (gateVec a)) dt).y
                    (addScaled v0 (qRotateVec (qConj qwd) (gateVec a)) dt).z)
             (getC cfg))
           (getC cfg))
         dt (getTau cfg) (getK cfg),
       t0 + dt / gammaFromV
         (limitSpeed
           (norm3 (addScaled v0 (qRotateVec (qConj qwd) (gateVec a)) dt).x
                  (addScaled v0 (qRotateVec (qConj qwd) (gateVec a)) dt).y
                  (addScaled v0 (qRotateVec (qConj qwd) (gateVec a)) dt).z)
           (getC cfg))
         (getC cfg),
       true⟩ := rfl

/-- C9 counterexample: with the device reading `(0.08, 0, 0)` and orientation
`(0.6, 0, 0, -0.8)`, the world-frame x component `-0.0224` is below the gate
in magnitude yet nonzero, and it reaches the integrator un-zeroed: the
velocity x component after the step is nonzero. -/
theorem c9_counterexample :
    |(qRotateVec (qConj ⟨0.6, 0, 0, -0.8⟩) ⟨0.08, 0, 0⟩).x| < GATE ∧
    (qRotateVec (qConj ⟨0.6, 0, 0, -0.8⟩) ⟨0.08, 0, 0⟩).x ≠ 0 ∧
    (loopStep ⟨⟨0.6, 0, 0, -0.8⟩, ⟨0, 0, 0⟩, 0, true⟩
      ⟨0.1, some ⟨0.08, 0, 0⟩, none, none, none, none, none, false,
       ⟨1, 0, 0, 0⟩, ⟨1, 3, 0.5⟩⟩).vWorld.x ≠ 0 := by
  have hgate : gateVec ⟨0.08, 0, 0⟩ = ⟨0.08, 0, 0⟩ := by
    norm_num [gateVec, gateAxis, GATE, abs_of_pos, Vec3.mk.injEq]
  have hrot : qRotateVec (qConj ⟨0.6, 0, 0, -0.8⟩) ⟨0.08, 0, 0⟩ =
      ⟨-0.0224, 0.0768, 0⟩ := by
    norm_num [qRotateVec, qMul, qConj, Vec3.mk.injEq]
  have hadd : addScaled ⟨0, 0, 0⟩ ⟨-0.0224, 0.0768, 0⟩ 0.1 =
      ⟨-0.00224, 0.00768, 0⟩ := by
    norm_num [addScaled, Vec3.mk.injEq]
  have hamag : norm3 (-0.0224 : ℝ) 0.0768 0 = 0.08 := by
    unfold norm3 hypot3
    rw [show ((-0.0224 : ℝ) * -0.0224 + 0.0768 * 0.0768 + 0 * 0) = 0.08 * 0.08 by
      norm_num]
    exact Real.sqrt_mul_self (by norm_num)
  refine ⟨?_, ?_, ?_⟩
  · rw [hrot]
    norm_num [GATE, abs_of_pos]
  · rw [hrot]
    norm_num
  · rw [loopStep_simple, hgate, hrot]
    dsimp only
    rw [hadd, hamag,
      driftDecay_off _ _ _ _ _ _ (by norm_num [GATE] : ¬((0.08 : ℝ) = 0 ∨ (0.08 : ℝ) < GATE * 1.5))]
    norm_num

/- ---------------------------------------------------------------
   C6 — rotation gating
   --------------------------------------------------------------- -/

/-- Evaluating `norm3` along one axis gives the coordinate itself when nonnegative. -/
lemma norm3_axis (x : ℝ) (hx : 0 ≤ x) : norm3 x 0 0 = x := by
  unfold norm3 hypot3
  simp only [mul_zero, zero_mul, add_zero]
  exact Real.sqrt_mul_self hx

/-- C6 counterexample: a step whose cached angular velocity has magnitude
1.0 (above the claimed 0.35 gate) and whose world acceleration has magnitude
0.1 (below the claimed 0.2 secondary threshold) still integrates: the speed
grows from 1 to 1.01 — there is no rotation gating in the code. -/
theorem c6_counterexample :
    norm3 (1 : ℝ) 0 0 > 0.35 ∧
    norm3 (0.1 : ℝ) 0 0 < 0.2 ∧
    norm3 (loopStep ⟨⟨1, 0, 0, 0⟩, ⟨1, 0, 0⟩, 0, true⟩
        ⟨0.1, some ⟨0.1, 0, 0⟩, none, none, some ⟨1, 0, 0⟩, none, none, false,
         ⟨1, 0, 0, 0⟩, ⟨1, 3, 0.5⟩⟩).vWorld.x
      (loopStep ⟨⟨1, 0, 0, 0⟩, ⟨1, 0, 0⟩, 0, true⟩
        ⟨0.1, some ⟨0.1, 0, 0⟩, none, none, some ⟨1, 0, 0⟩, none, none, false,
         ⟨1, 0, 0, 0⟩, ⟨1, 3, 0.5⟩⟩).vWorld.y
      (loopStep ⟨⟨1, 0, 0, 0⟩, ⟨1, 0, 0⟩, 0, true⟩
        ⟨0.1, some ⟨0.1, 0, 0⟩, none, none, some ⟨1, 0, 0⟩, none, none, false,
         ⟨1, 0, 0, 0⟩, ⟨1, 3, 0.5⟩⟩).vWorld.z >
      norm3 (1 : ℝ) 0 0 := by
  have hgate : gateVec ⟨0.1, 0, 0⟩ = ⟨0.1, 0, 0⟩ := by
    norm_num [gateVec, gateAxis, GATE, abs_of_pos, Vec3.mk.injEq]
  have hrot : qRotateVec (qConj ⟨1, 0, 0, 0⟩) ⟨0.1, 0, 0⟩ = ⟨0.1, 0, 0⟩ := by
    norm_num [qRotateVec, qMul, qConj, Vec3.mk.injEq]
  have hadd : addScaled ⟨1, 0, 0⟩ ⟨0.1, 0, 0⟩ 0.1 = ⟨1.01, 0, 0⟩ := by
    norm_num [addScaled, Vec3.mk.injEq]
  refine ⟨?_, ?_, ?_⟩
  · rw [norm3_axis 1 (by norm_num)]
    norm_num
  · rw [norm3_axis 0.1 (by norm_num)]
    norm_num
  · rw [loopStep_simple, hgate, hrot]
    dsimp only
    rw [hadd, norm3_axis 0.1 (by norm_num),
      driftDecay_off _ _ _ _ _ _
        (by norm_num [GATE] : ¬((0.1 : ℝ) = 0 ∨ (0.1 : ℝ) < GATE * 1.5))]
    dsimp only
    rw [norm3_axis 1.01 (by norm_num), norm3_axis 1 (by norm_num)]
    norm_num

/-- C6 (amended): the loop has no rotation gating — the cached angular
velocity is arbitrary below — and in the spec scenario (acceleration
magnitude 0.05, dt = 0.1 from speed 1, default settings) the speed still
does not increase, but only because the ordinary stillness decay branch
(magnitude strictly below `GATE * 1.5`) fires. -/
theorem c6_no_rotation_gate_decay_example (g : Option Vec3) :
    norm3 (loopStep ⟨⟨1, 0, 0, 0⟩, ⟨1, 0, 0⟩, 0, true⟩
        ⟨0.1, some ⟨0.05, 0, 0⟩, none, none, g, none, none, false,
         ⟨1, 0, 0, 0⟩, ⟨1, 3, 0.5⟩⟩).vWorld.x
      (loopStep ⟨⟨1, 0, 0, 0⟩, ⟨1, 0, 0⟩, 0, true⟩
        ⟨0.1, some ⟨0.05, 0, 0⟩, none, none, g, none, none, false,
         ⟨1, 0, 0, 0⟩, ⟨1, 3, 0.5⟩⟩).vWorld.y
      (loopStep ⟨⟨1, 0, 0, 0⟩, ⟨1, 0, 0⟩, 0, true⟩
        ⟨0.1, some ⟨0.05, 0, 0⟩, none, none, g, none, none, false,
         ⟨1, 0, 0, 0⟩, ⟨1, 3, 0.5⟩⟩).vWorld.z <
      norm3 (1 : ℝ) 0 0 := by
  have hgate : gateVec ⟨0.05, 0, 0⟩ = ⟨0.05, 0, 0⟩ := by
    norm_num [gateVec, gateAxis, GATE, abs_of_pos, Vec3.mk.injEq]
  have hrot : qRotateVec (qConj ⟨1, 0, 0, 0⟩) ⟨0.05, 0, 0⟩ = ⟨0.05, 0, 0⟩ := by
    norm_num [qRotateVec, qMul, qConj, Vec3.mk.injEq]
  have hadd : addScaled ⟨1, 0, 0⟩ ⟨0.05, 0, 0⟩ 0.1 = ⟨1.005, 0, 0⟩ := by
    norm_num [addScaled, Vec3.mk.injEq]
  rw [loopStep_simple, hgate, hrot]
  dsimp only
  rw [hadd, norm3_axis 0.05 (by norm_num),
    driftDecay_on _ _ _ _ _ _ (Or.inr (by norm_num [GATE]))]
  dsimp only
  set ga := gammaFromV
    (limitSpeed (norm3 (1.005 : ℝ) 0 0) (getC ⟨1, 3, 0.5⟩)) (getC ⟨1, 3, 0.5⟩) with hga
  have hk : getK (⟨1, 3, 0.5⟩ : Config) = 0.5 := by norm_num [getK]
  have ht : getTau (⟨1, 3, 0.5⟩ : Config) = 3 := by norm_num [getTau]
  rw [hk, ht]
  have hg1 : 1 ≤ ga := gammaFromV_ge_one _ _
  have hden : (1 : ℝ) ≤ 1 + 0.5 * (ga - 1) := by linarith
  have hdpos : (0 : ℝ) < 1 + 0.5 * (ga - 1) := by linarith
  have htpos : (0 : ℝ) < 3 / (1 + 0.5 * (ga - 1)) := by positivity
  have htle : 3 / (1 + 0.5 * (ga - 1)) ≤ 3 := by
    rw [div_le_iff₀ hdpos]
    nlinarith
  have hfrac : (1 : ℝ) / 30 ≤ 0.1 / (3 / (1 + 0.5 * (ga - 1))) := by
    rw [div_le_div_iff₀ (by norm_num) htpos]
    nlinarith
  have hmono : Real.exp (-(0.1) / (3 / (1 + 0.5 * (ga - 1)))) ≤
      Real.exp (-(1 / 30) : ℝ) := by
    apply Real.exp_le_exp.mpr
    simp only [neg_div]
    linarith
  have hsmall : Real.exp (-(1 / 30) : ℝ) < 1 / 1.005 := by
    have ha := Real.add_one_le_exp (1 / 30 : ℝ)
    have hb : (1.005 : ℝ) < Real.exp (1 / 30) := by linarith
    rw [Real.exp_neg]
    rw [inv_eq_one_div]
    apply one_div_lt_one_div_of_lt (by norm_num) hb
  have hepos : (0 : ℝ) < Real.exp (-(0.1) / (3 / (1 + 0.5 * (ga - 1)))) :=
    Real.exp_pos _
  have hvx : (0 : ℝ) ≤ 1.005 * Real.exp (-(0.1) / (3 / (1 + 0.5 * (ga - 1)))) := by
    positivity
  simp only [zero_mul]
  rw [norm3_axis _ hvx, norm3_axis 1 (by norm_num)]
  nlinarith

/- ---------------------------------------------------------------
   C8 — drift-to-rest decay
   --------------------------------------------------------------- -/

/-- C8 counterexample: at acceleration magnitude exactly `GATE * 1.5` the
code applies no decay (its test is strict), so from speed 1 the velocity x
component after the step is exactly `1.0075`, strictly above the value
`1.0075 * exp (-dt / tauEff)` the claim requires for that step. -/
theorem c8_counterexample :
    norm3 (0.075 : ℝ) 0 0 = GATE * 1.5 ∧
    (loopStep ⟨⟨1, 0, 0, 0⟩, ⟨1, 0, 0⟩, 0, true⟩
      ⟨0.1, some ⟨0.075, 0, 0⟩, none, none, none, none, none, false,
       ⟨1, 0, 0, 0⟩, ⟨1, 3, 0.5⟩⟩).vWorld.x = 1.0075 ∧
    1.0075 * Real.exp (-(0.1 : ℝ) /
        (3 / (1 + 0.5 * (gammaFromV (limitSpeed (norm3 (1.0075 : ℝ) 0 0) 1) 1 - 1)))) <
      1.0075 := by
  have hgate : gateVec ⟨0.075, 0, 0⟩ = ⟨0.075, 0, 0⟩ := by
    norm_num [gateVec, gateAxis, GATE, abs_of_pos, Vec3.mk.injEq]
  have hrot : qRotateVec (qConj ⟨1, 0, 0, 0⟩) ⟨0.075, 0, 0⟩ = ⟨0.075, 0, 0⟩ := by
    norm_num [qRotateVec, qMul, qConj, Vec3.mk.injEq]
  have hadd : addScaled ⟨1, 0, 0⟩ ⟨0.075, 0, 0⟩ 0.1 = ⟨1.0075, 0, 0⟩ := by
    norm_num [addScaled, Vec3.mk.injEq]
  refine ⟨by rw [norm3_axis 0.075 (by norm_num)]; norm_num [GATE], ?_, ?_⟩
  · rw [loopStep_simple, hgate, hrot]
    dsimp only
    rw [hadd, norm3_axis 0.075 (by norm_num),
      driftDecay_off _ _ _ _ _ _
        (by norm_num [GATE] : ¬((0.075 : ℝ) = 0 ∨ (0.075 : ℝ) < GATE * 1.5))]
  · set ga := gammaFromV (limitSpeed (norm3 (1.0075 : ℝ) 0 0) 1) 1 with hga
    have hg1 : 1 ≤ ga := gammaFromV_ge_one _ _
    have hdpos : (0 : ℝ) < 1 + 0.5 * (ga - 1) := by linarith
    have htpos : (0 : ℝ) < 3 / (1 + 0.5 * (ga - 1)) := by positivity
    have hneg : -(0.1 : ℝ) / (3 / (1 + 0.5 * (ga - 1))) < 0 := by
      apply div_neg_of_neg_of_pos (by norm_num) htpos
    have hlt : Real.exp (-(0.1 : ℝ) / (3 / (1 + 0.5 * (ga - 1)))) < 1 :=
      Real.exp_lt_one_iff.mpr hneg
    nlinarith

/-- A frame of duration `d` whose device reading is exactly zero, with the
spec-scenario settings `c = 1`, `tau = 3`, `k = 0`. -/
def stillFrame (d : ℝ) : FrameInput :=
  ⟨d, some ⟨0, 0, 0⟩, none, none, none, none, none, false, ⟨1, 0, 0, 0⟩, ⟨1, 3, 0⟩⟩

/-- Under a zero reading the loop leaves the quaternion alone and multiplies
the axis velocity by `exp (-dt / 3)` (with `k = 0` the adaptive time constant
reduces to the configured `tau = 3`). -/
lemma stillFrame_step (vx t0 d : ℝ) :
    loopStep ⟨⟨1, 0, 0, 0⟩, ⟨vx, 0, 0⟩, t0, true⟩ (stillFrame d) =
      ⟨⟨1, 0, 0, 0⟩, ⟨vx * Real.exp (-d / 3), 0, 0⟩,
       t0 + d / gammaFromV (limitSpeed (norm3 vx 0 0) 1) 1, true⟩ := by
  have hgate : gateVec ⟨0, 0, 0⟩ = ⟨0, 0, 0⟩ := by
    norm_num [gateVec, gateAxis, GATE, Vec3.mk.injEq]
  have hrot : qRotateVec (qConj ⟨1, 0, 0, 0⟩) ⟨0, 0, 0⟩ = ⟨0, 0, 0⟩ := by
    norm_num [qRotateVec, qMul, qConj, Vec3.mk.injEq]
  have hadd : addScaled ⟨vx, 0, 0⟩ ⟨0, 0, 0⟩ d = ⟨vx, 0, 0⟩ := by
    norm_num [addScaled, Vec3.mk.injEq]
  have hamag : norm3 (0 : ℝ) 0 0 = 0 := by
    unfold norm3 hypot3
    norm_num
  have hk : getK (⟨1, 3, 0⟩ : Config) = 0 := by norm_num [getK]
  have ht : getTau (⟨1, 3, 0⟩ : Config) = 3 := by norm_num [getTau]
  have hc : getC (⟨1, 3, 0⟩ : Config) = 1 := by norm_num [getC]
  simp only [stillFrame]
  rw [loopStep_simple, hgate, hrot]
  dsimp only
  rw [hadd, hamag, driftDecay_on _ _ _ _ _ _ (Or.inl rfl), hk, ht, hc]
  dsimp only
  simp only [zero_mul, add_zero, div_one]

/-- Folding zero-reading frames multiplies the axis velocity by
`exp (-(sum of the dts) / 3)`. -/
lemma stillFrame_run (dts : List ℝ) : ∀ vx t0 : ℝ,
    ∃ t1, runSteps ⟨⟨1, 0, 0, 0⟩, ⟨vx, 0, 0⟩, t0, true⟩ (dts.map stillFrame) =
      ⟨⟨1, 0, 0, 0⟩, ⟨vx * Real.exp (-dts.sum / 3), 0, 0⟩, t1, true⟩ := by
  induction dts with
  | nil =>
    intro vx t0
    refine ⟨t0, ?_⟩
    simp only [List.map_nil, List.sum_nil, runSteps, List.foldl_nil, neg_zero,
      zero_div, Real.exp_zero, mul_one]
  | cons d ds ih =>
    intro vx t0
    have hstep := stillFrame_step vx t0 d
    obtain ⟨t1, h1⟩ := ih (vx * Real.exp (-d / 3))
      (t0 + d / gammaFromV (limitSpeed (norm3 vx 0 0) 1) 1)
    refine ⟨t1, ?_⟩
    show runSteps (loopStep ⟨⟨1, 0, 0, 0⟩, ⟨vx, 0, 0⟩, t0, true⟩ (stillFrame d))
        (ds.map stillFrame) = _
    rw [hstep, h1, List.sum_cons]
    have hexp : vx * Real.exp (-d / 3) * Real.exp (-ds.sum / 3) =
        vx * Real.exp (-(d + ds.sum) / 3) := by
      rw [mul_assoc, ← Real.exp_add,
        show -d / 3 + -ds.sum / 3 = -(d + ds.sum) / 3 by ring]
    rw [hexp]

/-- C8 (amended): the stillness test is strict — at magnitude exactly
`GATE * 1.5` no decay applies — and under sustained zero acceleration with
`tau = 3`, `k = 0`, initial speed 1, the axis velocity after frames totalling
3 seconds is exactly `exp (-1)`, which is within 1% of `0.368`. -/
theorem c8_strict_gate_and_decay_example (dts : List ℝ) (h : dts.sum = 3) :
    (∀ (v : Vec3) (gamma dt tau k : ℝ),
      driftDecay v (GATE * 1.5) gamma dt tau k = v) ∧
    (∃ t1, runSteps ⟨⟨1, 0, 0, 0⟩, ⟨1, 0, 0⟩, 0, true⟩ (dts.map stillFrame) =
      ⟨⟨1, 0, 0, 0⟩, ⟨Real.exp (-1), 0, 0⟩, t1, true⟩) ∧
    |Real.exp (-1) - 0.368| ≤ 0.00368 := by
  refine ⟨?_, ?_, ?_⟩
  · intro v gamma dt tau k
    apply driftDecay_off
    norm_num [GATE]
  · obtain ⟨t1, h1⟩ := stillFrame_run dts 1 0
    refine ⟨t1, ?_⟩
    rw [h1, h]
    norm_num
  · have h1 := Real.exp_one_gt_d9
    have h2 := Real.exp_one_lt_d9
    have he : (0 : ℝ) < Real.exp 1 := Real.exp_pos 1
    have ha : (1 : ℝ) / 2.7182818286 < (Real.exp 1)⁻¹ := by
      rw [inv_eq_one_div]
      exact one_div_lt_one_div_of_lt he h2
    have hb : (Real.exp 1)⁻¹ < 1 / 2.7182818283 := by
      rw [inv_eq_one_div]
      exact one_div_lt_one_div_of_lt (by norm_num) h1
    rw [Real.exp_neg, abs_le]
    constructor <;> nlinarith

/-- C8 witness: three one-second frames. -/
theorem c8_strict_gate_and_decay_example_witness :
    List.sum [(1 : ℝ), 1, 1] = 3 ∧
    ((∀ (v : Vec3) (gamma dt tau k : ℝ),
        driftDecay v (GATE * 1.5) gamma dt tau k = v) ∧
      (∃ t1, runSteps ⟨⟨1, 0, 0, 0⟩, ⟨1, 0, 0⟩, 0, true⟩
          ([(1 : ℝ), 1, 1].map stillFrame) =
        ⟨⟨1, 0, 0, 0⟩, ⟨Real.exp (-1), 0, 0⟩, t1, true⟩) ∧
      |Real.exp (-1) - 0.368| ≤ 0.00368) := by
  have hsum : List.sum [(1 : ℝ), 1, 1] = 3 := by norm_num
  exact ⟨hsum, c8_strict_gate_and_decay_example [1, 1, 1] hsum⟩

/- ---------------------------------------------------------------
   C7 — gravity separation (Mode B)
   --------------------------------------------------------------- -/

/-- Quaternion rotation scales the squared length of a vector by the fourth
power of the quaternion length (Euler four-square identity applied twice). -/
lemma sumsq_qRotateVec (q : Quat) (v : Vec3) :
    (qRotateVec q v).x * (qRotateVec q v).x +
      (qRotateVec q v).y * (qRotateVec q v).y +
      (qRotateVec q v).z * (qRotateVec q v).z =
    (q.w * q.w + q.x * q.x + q.y * q.y + q.z * q.z) ^ 2 *
      (v.x * v.x + v.y * v.y + v.z * v.z) := by
  simp only [qRotateVec, qMul, qConj]
  ring

/-- Rotation by a unit quaternion preserves `norm3`. -/
lemma norm3_qRotateVec (q : Quat) (v : Vec3) (hq : qnorm q = 1) :
    norm3 (qRotateVec q v).x (qRotateVec q v).y (qRotateVec q v).z =
      norm3 v.x v.y v.z := by
  have hsum : q.w * q.w + q.x * q.x + q.y * q.y + q.z * q.z = 1 := by
    have := hq
    unfold qnorm hypot4 at this
    exact Real.sqrt_eq_one.mp this
  unfold norm3 hypot3
  rw [sumsq_qRotateVec, hsum]
  norm_num

/-- C7 (amended): when only the gravity-inclusive reading is cached, the code
subtracts the fixed nominal gravity vector `(0, 0, -G)` rotated into the
device frame by the current quaternion — there is no filtered gravity
estimate and no rescaling; the subtracted vector has magnitude exactly `G`
because unit-quaternion rotation preserves length. -/
theorem c7_rotated_constant_gravity (i : FrameInput) (qwd : Quat) (ai : Vec3)
    (hlin : i.linAcc = none) (hacc : i.accInc = some ai)
    (habs : i.usingAbs = false) (hq : qnorm qwd = 1) :
    getLinearAccDev i qwd =
      ⟨ai.x - (qRotateVec qwd ⟨0, 0, -G⟩).x,
       ai.y - (qRotateVec qwd ⟨0, 0, -G⟩).y,
       ai.z - (qRotateVec qwd ⟨0, 0, -G⟩).z⟩ ∧
    norm3 (qRotateVec qwd ⟨0, 0, -G⟩).x (qRotateVec qwd ⟨0, 0, -G⟩).y
      (qRotateVec qwd ⟨0, 0, -G⟩).z = G := by
  constructor
  · unfold getLinearAccDev
    rw [hlin, hacc, habs]
    simp
  · rw [norm3_qRotateVec qwd ⟨0, 0, -G⟩ hq]
    show norm3 0 0 (-G) = G
    unfold norm3 hypot3
    rw [show ((0 : ℝ) * 0 + 0 * 0 + -G * -G) = G * G by ring]
    exact Real.sqrt_mul_self (by norm_num [G])

/-- C7 witness: identity orientation and a zero cached reading. -/
theorem c7_rotated_constant_gravity_witness :
    (⟨0.1, none, some ⟨0, 0, 0⟩, none, none, none, none, false, ⟨1, 0, 0, 0⟩,
        ⟨1, 3, 0.5⟩⟩ : FrameInput).linAcc = none ∧
    (⟨0.1, none, some ⟨0, 0, 0⟩, none, none, none, none, false, ⟨1, 0, 0, 0⟩,
        ⟨1, 3, 0.5⟩⟩ : FrameInput).accInc = some ⟨0, 0, 0⟩ ∧
    (⟨0.1, none, some ⟨0, 0, 0⟩, none, none, none, none, false, ⟨1, 0, 0, 0⟩,
        ⟨1, 3, 0.5⟩⟩ : FrameInput).usingAbs = false ∧
    qnorm ⟨1, 0, 0, 0⟩ = 1 ∧
    (getLinearAccDev
        ⟨0.1, none, some ⟨0, 0, 0⟩, none, none, none, none, false, ⟨1, 0, 0, 0⟩,
         ⟨1, 3, 0.5⟩⟩ ⟨1, 0, 0, 0⟩ =
        ⟨0 - (qRotateVec ⟨1, 0, 0, 0⟩ ⟨0, 0, -G⟩).x,
         0 - (qRotateVec ⟨1, 0, 0, 0⟩ ⟨0, 0, -G⟩).y,
         0 - (qRotateVec ⟨1, 0, 0, 0⟩ ⟨0, 0, -G⟩).z⟩ ∧
      norm3 (qRotateVec ⟨1, 0, 0, 0⟩ ⟨0, 0, -G⟩).x
        (qRotateVec ⟨1, 0, 0, 0⟩ ⟨0, 0, -G⟩).y
        (qRotateVec ⟨1, 0, 0, 0⟩ ⟨0, 0, -G⟩).z = G) := by
  have hq : qnorm (⟨1, 0, 0, 0⟩ : Quat) = 1 := by
    unfold qnorm hypot4
    norm_num
  exact ⟨rfl, rfl, rfl, hq,
    c7_rotated_constant_gravity _ ⟨1, 0, 0, 0⟩ ⟨0, 0, 0⟩ rfl rfl rfl hq⟩

/-- C7 counterexample: on the reading `(G, 0, 0)` at identity orientation the
code returns z component `G`, while the spec's filtered-and-rescaled gravity
estimate (one step from a cleared estimate) returns z component `0` — the
code does not implement the low-pass gravity estimate. -/
theorem c7_counterexample :
    (getLinearAccDev
        ⟨0.1, none, some ⟨G, 0, 0⟩, none, none, none, none, false, ⟨1, 0, 0, 0⟩,
         ⟨1, 3, 0.5⟩⟩ ⟨1, 0, 0, 0⟩).z = G ∧
    ((specModeB ⟨0, 0, 0⟩ ⟨G, 0, 0⟩ 0.1).2).z = 0 ∧
    (G : ℝ) ≠ 0 := by
  have hrotg : qRotateVec ⟨1, 0, 0, 0⟩ ⟨0, 0, -G⟩ = ⟨0, 0, -G⟩ := by
    norm_num [qRotateVec, qMul, qConj, Vec3.mk.injEq]
  refine ⟨?_, ?_, by norm_num [G]⟩
  · show (⟨(G : ℝ) - (qRotateVec ⟨1, 0, 0, 0⟩ ⟨0, 0, -G⟩).x,
        (0 : ℝ) - (qRotateVec ⟨1, 0, 0, 0⟩ ⟨0, 0, -G⟩).y,
        (0 : ℝ) - (qRotateVec ⟨1, 0, 0, 0⟩ ⟨0, 0, -G⟩).z⟩ : Vec3).z = G
    rw [hrotg]
    norm_num
  · have hexp : Real.exp (-(0.1 : ℝ) / 0.7) < 1 :=
      Real.exp_lt_one_iff.mpr (by norm_num)
    have hexp0 : (0 : ℝ) < Real.exp (-(0.1 : ℝ) / 0.7) := Real.exp_pos _
    unfold specModeB
    dsimp only
    set al := Real.exp (-(0.1 : ℝ) / 0.7) with hal
    have hg0 : (0 : ℝ) < (1 - al) * G := by
      have : (0 : ℝ) < G := by norm_num [G]
      nlinarith
    have hsimp0 : al * (0 : ℝ) + (1 - al) * (0 : ℝ) = 0 := by ring
    have hx : al * (0 : ℝ) + (1 - al) * G = (1 - al) * G := by ring
    rw [hx, hsimp0]
    have hmag : norm3 ((1 - al) * G) 0 0 = (1 - al) * G :=
      norm3_axis _ hg0.le
    rw [hmag, if_neg hg0.ne']
    dsimp only
    norm_num

/- ---------------------------------------------------------------
   C5 — degenerate reference vectors
   --------------------------------------------------------------- -/

/-- With a zero magnetometer vector every magnetic summand of the corrective
gradient vanishes, leaving the gravity-only gradient. -/
lemma gradS_zero_mag (q : Quat) (ax ay az : ℝ) :
    Madgwick.gradS q ax ay az 0 0 0 = Madgwick.gradSGravOnly q ax ay az := by
  simp only [Madgwick.gradS, Madgwick.gradSGravOnly, mul_zero, zero_mul,
    add_zero, zero_add, sub_zero, zero_sub, neg_zero, Real.sqrt_zero]

/-- With a zero magnetometer vector the integrated update equals the
gravity-only integrated update. -/
lemma integrated_zero_mag (q : Quat) (gx gy gz ax ay az dt : ℝ) :
    Madgwick.integrated q gx gy gz ax ay az 0 0 0 dt =
      Madgwick.integratedGravOnly q gx gy gz ax ay az dt := by
  unfold Madgwick.integrated Madgwick.integratedGravOnly
  have hm : hypot3 (0 : ℝ) 0 0 = 0 := by
    unfold hypot3
    norm_num
  rw [hm]
  simp only [ne_eq, not_true_eq_false, if_false, gradS_zero_mag]

/-- C5 (amended): a zero-magnitude accelerometer reading makes the update
return the quaternion unchanged — the whole step, gyro integration included,
is skipped, so the quaternion is never poisoned but is not advanced either;
a zero magnetometer reading only removes the magnetic correction term, and
the gyro-plus-gravity update still runs. -/
theorem c5_zero_reference_behaviour :
    (∀ (q : Quat) (gx gy gz mx my mz dt : ℝ),
      Madgwick.update q gx gy gz 0 0 0 mx my mz dt = q) ∧
    (∀ (q : Quat) (gx gy gz ax ay az dt : ℝ),
      Madgwick.update q gx gy gz ax ay az 0 0 0 dt =
        Madgwick.updateGravOnly q gx gy gz ax ay az dt) := by
  constructor
  · intro q gx gy gz mx my mz dt
    unfold Madgwick.update
    rw [if_pos]
    unfold hypot3
    norm_num
  · intro q gx gy gz ax ay az dt
    unfold Madgwick.update Madgwick.updateGravOnly
    by_cases h : hypot3 ax ay az = 0
    · rw [if_pos h, if_pos h]
    · rw [if_neg h, if_neg h, integrated_zero_mag]

/-- C5 counterexample: on a zero accelerometer reading with gyro rate
`(1, 0, 0)` over one second the update leaves the quaternion at the
identity, whereas the pure gyroscopic kinematic integration the spec
promises moves it — the code skips the gyro term too. -/
theorem c5_counterexample :
    Madgwick.update ⟨1, 0, 0, 0⟩ 1 0 0 0 0 0 0 0 0 1 = ⟨1, 0, 0, 0⟩ ∧
    gyroKinematicStep ⟨1, 0, 0, 0⟩ 1 0 0 1 ≠ ⟨1, 0, 0, 0⟩ := by
  constructor
  · unfold Madgwick.update
    rw [if_pos]
    unfold hypot3
    norm_num
  · intro hcontra
    have hx : (gyroKinematicStep ⟨1, 0, 0, 0⟩ 1 0 0 1).x = 0 := by
      rw [hcontra]
    have hq : qMul ⟨1, 0, 0, 0⟩ ⟨0, 1, 0, 0⟩ = ⟨0, 1, 0, 0⟩ := by
      norm_num [qMul, Quat.mk.injEq]
    unfold gyroKinematicStep at hx
    rw [hq] at hx
    dsimp only at hx
    have hpre : ((⟨1 + 0.5 * 0 * 1, 0 + 0.5 * 1 * 1, 0 + 0.5 * 0 * 1,
        0 + 0.5 * 0 * 1⟩ : Quat)) = (⟨1, 0.5, 0, 0⟩ : Quat) := by
      norm_num [Quat.mk.injEq]
    rw [hpre] at hx
    have hnn : hypot4 (1 : ℝ) 0.5 0 0 = Real.sqrt 1.25 := by
      unfold hypot4
      norm_num
    have hs : (0 : ℝ) < Real.sqrt 1.25 := Real.sqrt_pos.mpr (by norm_num)
    unfold qNormalize at hx
    dsimp only at hx
    rw [hnn] at hx
    rw [jsOr, if_neg hs.ne'] at hx
    have : (0.5 : ℝ) / Real.sqrt 1.25 > 0 := by positivity
    rw [hx] at this
    exact lt_irrefl 0 this

/- ---------------------------------------------------------------
   C4 — quaternion norm
   --------------------------------------------------------------- -/

/-- Applying `jsOr` to a zero left operand yields the right operand. -/
lemma jsOr_zero (y : ℝ) : jsOr 0 y = y := if_pos rfl

/-- Applying `jsOr` to a nonzero left operand yields the left operand. -/
lemma jsOr_ne (x y : ℝ) (h : x ≠ 0) : jsOr x y = x := if_neg h

/-- Normalizing a quaternion of nonzero norm via `qNormalize` gives norm exactly 1. -/
lemma qnorm_qNormalize (q : Quat) (h : qnorm q ≠ 0) :
    qnorm (qNormalize q) = 1 := by
  simp only [qnorm, qNormalize, hypot4] at h ⊢
  rw [jsOr_ne _ _ h]
  have hS0 : (0 : ℝ) ≤ q.w * q.w + q.x * q.x + q.y * q.y + q.z * q.z := by
    nlinarith [mul_self_nonneg q.w, mul_self_nonneg q.x, mul_self_nonneg q.y,
      mul_self_nonneg q.z]
  have hSne : q.w * q.w + q.x * q.x + q.y * q.y + q.z * q.z ≠ 0 := by
    intro h0
    rw [h0, Real.sqrt_zero] at h
    exact h rfl
  have hmul := Real.mul_self_sqrt hS0
  generalize Real.sqrt (q.w * q.w + q.x * q.x + q.y * q.y + q.z * q.z) = n
    at hmul ⊢
  rw [show q.w / n * (q.w / n) + q.x / n * (q.x / n) + q.y / n * (q.y / n) +
      q.z / n * (q.z / n) =
      (q.w * q.w + q.x * q.x + q.y * q.y + q.z * q.z) / (n * n) from by ring,
    hmul, div_self hSne, Real.sqrt_one]

/-- C4 (amended): whenever the accelerometer magnitude is nonzero and the
integrated (pre-normalization) quaternion is nonzero, the stored quaternion
after the update has norm exactly 1. -/
theorem c4_unit_norm_when_nondegenerate (q : Quat)
    (gx gy gz ax ay az mx my mz dt : ℝ)
    (ha : hypot3 ax ay az ≠ 0)
    (hnz : qnorm (Madgwick.integrated q gx gy gz ax ay az mx my mz dt) ≠ 0) :
    qnorm (Madgwick.update q gx gy gz ax ay az mx my mz dt) = 1 := by
  unfold Madgwick.update
  rw [if_neg ha]
  exact qnorm_qNormalize _ hnz

/-- Closed form of the integrated update for a zero magnetometer reading and
an accelerometer reading that is already unit length. -/
lemma integrated_unit_accel (q : Quat) (gx gy gz ax ay az dt : ℝ)
    (ha : hypot3 ax ay az = 1) :
    Madgwick.integrated q gx gy gz ax ay az 0 0 0 dt =
      ⟨q.w + (0.5 * (-q.x * gx - q.y * gy - q.z * gz) - Madgwick.beta *
          ((Madgwick.gradSGravOnly q ax ay az).w *
            (1 / hypot4 (Madgwick.gradSGravOnly q ax ay az).w
              (Madgwick.gradSGravOnly q ax ay az).x
              (Madgwick.gradSGravOnly q ax ay az).y
              (jsOr (Madgwick.gradSGravOnly q ax ay az).z 1)))) * dt,
       q.x + (0.5 * ( q.w * gx + q.y * gz - q.z * gy) - Madgwick.beta *
          ((Madgwick.gradSGravOnly q ax ay az).x *
            (1 / hypot4 (Madgwick.gradSGravOnly q ax ay az).w
              (Madgwick.gradSGravOnly q ax ay az).x
              (Madgwick.gradSGravOnly q ax ay az).y
              (jsOr (Madgwick.gradSGravOnly q ax ay az).z 1)))) * dt,
       q.y + (0.5 * ( q.w * gy - q.x * gz + q.z * gx) - Madgwick.beta *
          ((Madgwick.gradSGravOnly q ax ay az).y *
            (1 / hypot4 (Madgwick.gradSGravOnly q ax ay az).w
              (Madgwick.gradSGravOnly q ax ay az).x
              (Madgwick.gradSGravOnly q ax ay az).y
              (jsOr (Madgwick.gradSGravOnly q ax ay az).z 1)))) * dt,
       q.z + (0.5 * ( q.w * gz + q.x * gy - q.y * gx) - Madgwick.beta *
          ((Madgwick.gradSGravOnly q ax ay az).z *
            (1 / hypot4 (Madgwick.gradSGravOnly q ax ay az).w
              (Madgwick.gradSGravOnly q ax ay az).x
              (Madgwick.gradSGravOnly q ax ay az).y
              (jsOr (Madgwick.gradSGravOnly q ax ay az).z 1)))) * dt⟩ := by
  rw [integrated_zero_mag]
  unfold Madgwick.integratedGravOnly
  rw [ha]
  simp only [div_one]

/-- C4 witness: at the identity with a unit accelerometer reading along z,
zero gyro and zero magnetometer, the integrated quaternion is the identity
(nonzero), so the update has norm exactly 1. -/
theorem c4_unit_norm_when_nondegenerate_witness :
    hypot3 (0 : ℝ) 0 1 ≠ 0 ∧
    qnorm (Madgwick.integrated ⟨1, 0, 0, 0⟩ 0 0 0 0 0 1 0 0 0 1) ≠ 0 ∧
    qnorm (Madgwick.update ⟨1, 0, 0, 0⟩ 0 0 0 0 0 1 0 0 0 1) = 1 := by
  have ha : hypot3 (0 : ℝ) 0 1 = 1 := by
    unfold hypot3
    norm_num
  have hane : hypot3 (0 : ℝ) 0 1 ≠ 0 := by
    rw [ha]
    norm_num
  have hs0 : Madgwick.gradSGravOnly ⟨1, 0, 0, 0⟩ 0 0 1 = ⟨0, 0, 0, 0⟩ := by
    norm_num [Madgwick.gradSGravOnly, Quat.mk.injEq]
  have hh0 : hypot4 (0 : ℝ) 0 0 1 = 1 := by
    unfold hypot4
    norm_num
  have hint : Madgwick.integrated ⟨1, 0, 0, 0⟩ 0 0 0 0 0 1 0 0 0 1 =
      ⟨1, 0, 0, 0⟩ := by
    rw [integrated_unit_accel _ _ _ _ _ _ _ _ ha, hs0]
    dsimp only
    rw [jsOr_zero, hh0]
    norm_num [Quat.mk.injEq]
  have hnz : qnorm (Madgwick.integrated ⟨1, 0, 0, 0⟩ 0 0 0 0 0 1 0 0 0 1) ≠ 0 := by
    rw [hint]
    unfold qnorm hypot4
    norm_num
  exact ⟨hane, hnz,
    c4_unit_norm_when_nondegenerate _ _ _ _ _ _ _ _ _ _ _ hane hnz⟩

/-- C4 counterexample: a two-step finite input sequence from the identity
drives the integrated quaternion to exactly zero; the `|| 1` guard then
stores the zero quaternion, whose norm 0 is not within `1e-9` of 1.  Step 1
(unit accelerometer along x, no gyro, `dt = 15√5/4`) moves the quaternion to
`(4/5, 0, -3/5, 0)`; step 2 (unit accelerometer along z, gyro
`(0, -48/(5√8113), 0)`, `dt = 5√8113/36`) cancels it exactly. -/
theorem c4_counterexample :
    ¬(|qnorm (Madgwick.update
        (Madgwick.update ⟨1, 0, 0, 0⟩ 0 0 0 1 0 0 0 0 0 (15 * Real.sqrt 5 / 4))
        0 (-(48 / (5 * Real.sqrt 8113))) 0 0 0 1 0 0 0
        (5 * Real.sqrt 8113 / 36)) - 1| ≤ 1e-9) := by
  have ha1 : hypot3 (1 : ℝ) 0 0 = 1 := by
    unfold hypot3
    norm_num
  have ha2 : hypot3 (0 : ℝ) 0 1 = 1 := by
    unfold hypot3
    norm_num
  have hs1 : Madgwick.gradSGravOnly ⟨1, 0, 0, 0⟩ 1 0 0 = ⟨0, 0, 2, 0⟩ := by
    norm_num [Madgwick.gradSGravOnly, Quat.mk.injEq]
  have hh1 : hypot4 (0 : ℝ) 0 2 1 = Real.sqrt 5 := by
    unfold hypot4
    norm_num
  have h5pos : (0 : ℝ) < Real.sqrt 5 := Real.sqrt_pos.mpr (by norm_num)
  have hint1 : Madgwick.integrated ⟨1, 0, 0, 0⟩ 0 0 0 1 0 0 0 0 0
      (15 * Real.sqrt 5 / 4) = ⟨1, 0, -(3 / 4), 0⟩ := by
    rw [integrated_unit_accel _ _ _ _ _ _ _ _ ha1, hs1]
    dsimp only
    rw [jsOr_zero, hh1, Quat.mk.injEq]
    refine ⟨by norm_num, by norm_num, ?_, by norm_num⟩
    rw [Madgwick.beta]
    field_simp
    ring
  have hq1 : qNormalize ⟨1, 0, -(3 / 4), 0⟩ = ⟨4 / 5, 0, -(3 / 5), 0⟩ := by
    have hh : hypot4 (1 : ℝ) 0 (-(3 / 4)) 0 = 5 / 4 := by
      unfold hypot4
      rw [show ((1 : ℝ) * 1 + 0 * 0 + -(3 / 4) * -(3 / 4) + 0 * 0) =
        (5 / 4) * (5 / 4) by norm_num]
      exact Real.sqrt_mul_self (by norm_num)
    unfold qNormalize
    rw [hh, jsOr_ne _ _ (by norm_num)]
    norm_num [Quat.mk.injEq]
  have hstep1 : Madgwick.update ⟨1, 0, 0, 0⟩ 0 0 0 1 0 0 0 0 0
      (15 * Real.sqrt 5 / 4) = ⟨4 / 5, 0, -(3 / 5), 0⟩ := by
    unfold Madgwick.update
    rw [if_neg (by rw [ha1]; norm_num), hint1, hq1]
  have hs2 : Madgwick.gradSGravOnly ⟨4 / 5, 0, -(3 / 5), 0⟩ 0 0 1 =
      ⟨144 / 125, 0, -(408 / 125), 0⟩ := by
    norm_num [Madgwick.gradSGravOnly, Quat.mk.injEq]
  have hh2 : hypot4 (144 / 125 : ℝ) 0 (-(408 / 125)) 1 = Real.sqrt 8113 / 25 := by
    unfold hypot4
    rw [show ((144 / 125 : ℝ) * (144 / 125) + 0 * 0 +
        -(408 / 125) * -(408 / 125) + 1 * 1) = 8113 / 625 by norm_num]
    apply sqrt_eq_of_sq (by positivity)
    rw [div_mul_div_comm, Real.mul_self_sqrt (by norm_num : (0 : ℝ) ≤ 8113)]
    norm_num
  have hrpos : (0 : ℝ) < Real.sqrt 8113 := Real.sqrt_pos.mpr (by norm_num)
  have hint2 : Madgwick.integrated ⟨4 / 5, 0, -(3 / 5), 0⟩
      0 (-(48 / (5 * Real.sqrt 8113))) 0 0 0 1 0 0 0
      (5 * Real.sqrt 8113 / 36) = ⟨0, 0, 0, 0⟩ := by
    rw [integrated_unit_accel _ _ _ _ _ _ _ _ ha2, hs2]
    dsimp only
    rw [jsOr_zero, hh2, Quat.mk.injEq]
    rw [Madgwick.beta]
    refine ⟨?_, by norm_num, ?_, by norm_num⟩
    · field_simp
      ring
    · field_simp
      ring
  have hq2 : qNormalize ⟨0, 0, 0, 0⟩ = ⟨0, 0, 0, 0⟩ := by
    have hh : hypot4 (0 : ℝ) 0 0 0 = 0 := by
      unfold hypot4
      norm_num
    unfold qNormalize
    rw [hh, jsOr_zero]
    norm_num [Quat.mk.injEq]
  have hstep2 : Madgwick.update ⟨4 / 5, 0, -(3 / 5), 0⟩
      0 (-(48 / (5 * Real.sqrt 8113))) 0 0 0 1 0 0 0
      (5 * Real.sqrt 8113 / 36) = ⟨0, 0, 0, 0⟩ := by
    unfold Madgwick.update
    rw [if_neg (by rw [ha2]; norm_num), hint2, hq2]
  rw [hstep1, hstep2]
  have h0 : qnorm (⟨0, 0, 0, 0⟩ : Quat) = 0 := by
    unfold qnorm hypot4
    norm_num
  rw [h0]
  norm_num

end Twins
